import Mathlib

/-!
# Verification of the Modbus-TCP-Proxy repository

Shallow embedding of `src/modbus_tcp_proxy.py` and `src/merge_config.py`.
Byte strings are modelled as `List Nat`, sockets as explicit byte streams,
and the nondeterminism of `socket.recv` (how many bytes the network hands
over per call) as an explicit schedule list.  Fallible operations return
`Option`.
-/

set_option autoImplicit false

namespace ModbusProxy

/-- Constant `DEFAULT_RECV_BUFFER_SIZE = 1024` from `modbus_tcp_proxy.py`. -/
def DEFAULT_RECV_BUFFER_SIZE : Nat := 1024

/-- Constant `MODBUS_TCP_HEADER_LENGTH = 6` from `modbus_tcp_proxy.py`. -/
def MODBUS_TCP_HEADER_LENGTH : Nat := 6

/-- The MBAP length field of a byte string: bytes 4 and 5 big-endian,
as computed by `send_request` via `(header[4] << 8) + header[5]`. -/
def len_field (b : List Nat) : Nat := b.getD 4 0 * 256 + b.getD 5 0

/-- A byte string is exactly one complete Modbus/TCP ADU: a 7-byte MBAP
header followed by `length - 1` PDU bytes, i.e. total size
`6 + length` where `length` is the MBAP length field. -/
def isCompleteADU (b : List Nat) : Bool :=
  decide (7 ≤ b.length) && decide (b.length = 6 + len_field b)

/-! ## The client handler loop (`handle_client`)

One loop iteration performs `client_socket.recv(DEFAULT_RECV_BUFFER_SIZE)`.
The outcome of that call is one of: a chunk of bytes (empty = peer closed),
a `socket.timeout`, or a socket error. -/

/-- Outcome of one `recv` call in `handle_client`. -/
inductive RecvEvent where
  | bytes (chunk : List Nat)
  | timeout
  | sockError
deriving DecidableEq, Repr

/-- What one iteration of the `handle_client` loop does. -/
inductive HandlerAction where
  | enqueue (chunk : List Nat)
  | exitLoop
  | continueLoop
deriving DecidableEq, Repr

/-- One iteration of the `while not stop_event.is_set()` loop body of
`handle_client` (modbus_tcp_proxy.py lines 347-364), given the value of
`stop_event.is_set()` at the re-check inside the `socket.timeout` handler:
* `recv` returns `b""` → `break` (client disconnected);
* `recv` returns data → `request_queue.put((data, client_socket, connection_id))`;
* `socket.timeout` → `break` if the stop event is set, else `continue`;
* socket/OS error or unexpected error → `break`. -/
def handle_client_step (stop_set : Bool) (ev : RecvEvent) : HandlerAction :=
  match ev with
  | .bytes [] => .exitLoop
  | .bytes c => .enqueue c
  | .timeout => if stop_set then .exitLoop else .continueLoop
  | .sockError => .exitLoop

/-- The `handle_client` loop over a finite trace of recv outcomes, with a
fixed stop-event value; returns the list of chunks enqueued as work items,
in order. -/
def handle_client_run (stop_set : Bool) : List RecvEvent → List (List Nat)
  | [] => []
  | ev :: evs =>
    if stop_set then []
    else
      match handle_client_step stop_set ev with
      | .enqueue c => c :: handle_client_run stop_set evs
      | .exitLoop => []
      | .continueLoop => handle_client_run stop_set evs

/-! ## `PersistentModbusClient._read_exact` and `send_request`

`_read_exact(sock, n)` loops `recv(min(bytes_remaining, 1024))` until `n`
bytes are collected; an empty chunk raises `ConnectionAbortedError`, a
timeout raises.  We model the upstream socket as a byte stream plus a
schedule: the i-th `recv` call yields `min(schedule[i], requested, available)`
bytes from the stream front; a zero-byte yield or an exhausted schedule
models the error cases (all collapse to `none`). -/

/-- Model of `_read_exact` (modbus_tcp_proxy.py lines 261-281).  Returns the
`n` bytes read and the remaining stream, or `none` on premature close or
timeout. -/
def read_exact (sched : List Nat) (stream : List Nat) (n : Nat) :
    Option (List Nat × List Nat) :=
  match n with
  | 0 => some ([], stream)
  | m + 1 =>
    match sched with
    | [] => none
    | k :: ks =>
      let req := min (m + 1) DEFAULT_RECV_BUFFER_SIZE
      let give := min k (min req stream.length)
      if give = 0 then none
      else
        match read_exact ks (stream.drop give) (m + 1 - give) with
        | none => none
        | some (bytes, rest) => some (stream.take give ++ bytes, rest)

/-- Model of `PersistentModbusClient.send_request` (lines 283-307): send
`data` with `sendall` (which does not affect the response stream), read
exactly 6 header bytes, compute `pdu_length = (header[4] << 8) + header[5]`,
read exactly `pdu_length` further bytes, return `header + pdu`.  `sched1`
and `sched2` are the recv schedules of the two `_read_exact` calls;
`stream` is the upstream's response byte stream.  Note: no validation of
`pdu_length` of any kind appears in the source. -/
def send_request (data : List Nat) (sched1 sched2 : List Nat)
    (stream : List Nat) : Option (List Nat) :=
  match read_exact sched1 stream MODBUS_TCP_HEADER_LENGTH with
  | none => none
  | some (header, rest) =>
    let pdu_length := (header.getD 4 0) * 256 + header.getD 5 0
    match read_exact sched2 rest pdu_length with
    | none => none
    | some (pdu, _) =>
      have _ := data
      some (header ++ pdu)

/-- The top-level sections recognised by the cerberus schema in
`validate_config` (modbus_tcp_proxy.py lines 63-161). -/
def config_schema_sections : List String := ["Proxy", "ModbusServer", "Logging"]

example : read_exact [6] [0, 1, 0, 0, 0, 0] 6 = some ([0, 1, 0, 0, 0, 0], []) := by
  decide

example : send_request [0, 1] [6] [] [0, 1, 0, 0, 0, 0] = some [0, 1, 0, 0, 0, 0] := by
  decide

/-! ### Basic lemmas about `read_exact` -/

/-- On success, `read_exact` returns exactly the first `n` bytes of the
stream and the remainder. -/
theorem read_exact_eq (sched : List Nat) :
    ∀ (stream : List Nat) (n : Nat) (bytes rest : List Nat),
      read_exact sched stream n = some (bytes, rest) →
      bytes = stream.take n ∧ rest = stream.drop n ∧ bytes.length = n ∧
        n ≤ stream.length := by
  induction sched with
  | nil =>
    intro stream n bytes rest h
    match n with
    | 0 =>
      simp only [read_exact, Option.some.injEq, Prod.mk.injEq] at h
      obtain ⟨h1, h2⟩ := h
      subst h1; subst h2
      simp
    | m + 1 => simp [read_exact] at h
  | cons k ks ih =>
    intro stream n bytes rest h
    match n with
    | 0 =>
      simp only [read_exact, Option.some.injEq, Prod.mk.injEq] at h
      obtain ⟨h1, h2⟩ := h
      subst h1; subst h2
      simp
    | m + 1 =>
      simp only [read_exact] at h
      set req := min (m + 1) DEFAULT_RECV_BUFFER_SIZE with hreq
      set give := min k (min req stream.length) with hgive
      by_cases h0 : give = 0
      · simp [h0] at h
      · simp only [h0, if_false] at h
        match hrec : read_exact ks (stream.drop give) (m + 1 - give) with
        | none => rw [hrec] at h; exact absurd h (by simp)
        | some (bytes2, rest2) =>
          rw [hrec] at h
          simp only [Option.some.injEq, Prod.mk.injEq] at h
          obtain ⟨hb, hr⟩ := h
          obtain ⟨ih1, ih2, ih3, ih4⟩ := ih _ _ _ _ hrec
          have hgive_le_n : give ≤ m + 1 := by
            have h1 : give ≤ min req stream.length := hgive ▸ min_le_right _ _
            have h2 : min req stream.length ≤ req := min_le_left _ _
            have h3 : req ≤ m + 1 := hreq ▸ min_le_left _ _
            omega
          have hgive_le_len : give ≤ stream.length := by
            have h1 : give ≤ min req stream.length := hgive ▸ min_le_right _ _
            have h2 : min req stream.length ≤ stream.length := min_le_right _ _
            omega
          have hlen_drop : (stream.drop give).length = stream.length - give := by
            simp
          refine ⟨?_, ?_, ?_, ?_⟩
          · rw [← hb, ih1]
            have hsplit : stream.take (m + 1) =
                stream.take give ++ (stream.drop give).take (m + 1 - give) := by
              conv_lhs => rw [show m + 1 = give + (m + 1 - give) by omega]
              rw [List.take_add]
            rw [hsplit]
          · rw [← hr, ih2, List.drop_drop]
            congr 1
            omega
          · rw [← hb]
            simp only [List.length_append, ih3]
            rw [List.length_take]
            omega
          · rw [hlen_drop] at ih4
            omega

/-- `read_exact` with a generous schedule (each recv offers the full buffer
size) succeeds whenever the stream holds enough bytes and the schedule has
enough entries. -/
theorem read_exact_success :
    ∀ (m : Nat) (stream : List Nat) (n : Nat),
      n ≤ stream.length → n ≤ DEFAULT_RECV_BUFFER_SIZE * m →
      read_exact (List.replicate m DEFAULT_RECV_BUFFER_SIZE) stream n =
        some (stream.take n, stream.drop n) := by
  intro m
  induction m with
  | zero =>
    intro stream n hlen hcap
    have : n = 0 := by simpa using hcap
    subst this
    simp [read_exact]
  | succ m ih =>
    intro stream n hlen hcap
    match n with
    | 0 => simp [read_exact]
    | j + 1 =>
      rw [List.replicate_succ]
      simp only [read_exact]
      have hreq_le : min (j + 1) DEFAULT_RECV_BUFFER_SIZE ≤ stream.length := by
        have := min_le_left (j + 1) DEFAULT_RECV_BUFFER_SIZE
        omega
      have hgive : min DEFAULT_RECV_BUFFER_SIZE
          (min (min (j + 1) DEFAULT_RECV_BUFFER_SIZE) stream.length) =
          min (j + 1) DEFAULT_RECV_BUFFER_SIZE := by
        rw [min_eq_left hreq_le, min_eq_right (min_le_right _ _)]
      rw [hgive]
      set g := min (j + 1) DEFAULT_RECV_BUFFER_SIZE with hg
      have hgpos : g ≠ 0 := by
        rw [hg]
        have : 0 < DEFAULT_RECV_BUFFER_SIZE := by decide
        omega
      simp only [hgpos, if_false]
      have hrec := ih (stream.drop g) (j + 1 - g)
        (by simp; omega)
        (by
          by_cases hc : j + 1 ≤ DEFAULT_RECV_BUFFER_SIZE
          · have : g = j + 1 := by rw [hg]; omega
            omega
          · have : g = DEFAULT_RECV_BUFFER_SIZE := by rw [hg]; omega
            have := hcap
            simp [Nat.mul_succ] at this ⊢
            omega)
      rw [hrec]
      have htake : stream.take g ++ (stream.drop g).take (j + 1 - g) =
          stream.take (j + 1) := by
        have hsplit : j + 1 = g + (j + 1 - g) := by
          have : g ≤ j + 1 := by rw [hg]; exact min_le_left _ _
          omega
        conv_rhs => rw [hsplit]
        rw [List.take_add]
      have hdrop : (stream.drop g).drop (j + 1 - g) = stream.drop (j + 1) := by
        rw [List.drop_drop]
        congr 1
        have : g ≤ j + 1 := by rw [hg]; exact min_le_left _ _
        omega
      show some (stream.take g ++ (stream.drop g).take (j + 1 - g),
        (stream.drop g).drop (j + 1 - g)) = some (stream.take (j + 1), stream.drop (j + 1))
      rw [htake, hdrop]

/-! ## Admission: allow-list check in the accept loop of `start_server`
(modbus_tcp_proxy.py lines 445-452 and 483-502) -/

/-- An IPv4 network as produced by `ipaddress.ip_network`: a (masked)
network address and a prefix length.  Addresses are 32-bit naturals. -/
structure IPNetwork where
  address : Nat
  prefixLen : Nat
deriving DecidableEq

/-- `client_ip in net` for an `ipaddress` network: the top `prefixLen` bits
of the address match. -/
def net_contains (net : IPNetwork) (ip : Nat) : Bool :=
  decide (ip / 2 ^ (32 - net.prefixLen) = net.address / 2 ^ (32 - net.prefixLen))

/-- A configured `AllowedIPs` entry: a bare IP string or CIDR notation. -/
inductive AllowedEntry where
  | singleIP (address : Nat)
  | cidr (address : Nat) (prefixLen : Nat)
deriving DecidableEq

/-- `ip_network(entry, strict=False)`: a bare IP becomes the /32 host
network; CIDR notation has its host bits masked off. -/
def parse_entry : AllowedEntry → IPNetwork
  | .singleIP a => ⟨a, 32⟩
  | .cidr a p => ⟨a / 2 ^ (32 - p) * 2 ^ (32 - p), p⟩

/-- What the accept loop does with one accepted connection. -/
inductive AcceptAction where
  | closeNotAllowed
  | closeMaxConnections
  | spawnHandler
deriving DecidableEq

/-- The admission decision of the accept loop (lines 483-502): if
`allowed_networks` is non-empty and the client IP is in none of them,
close the socket and `continue` (no handler); otherwise try the
connection semaphore; on success submit `handle_client`. -/
def accept_decision (allowed_networks : List IPNetwork) (client_ip : Nat)
    (semaphore_acquired : Bool) : AcceptAction :=
  if !allowed_networks.isEmpty &&
      !(allowed_networks.any fun net => net_contains net client_ip) then
    AcceptAction.closeNotAllowed
  else if !semaphore_acquired then
    AcceptAction.closeMaxConnections
  else
    AcceptAction.spawnHandler

/-! ## `PersistentModbusClient.connect` (lines 210-239)

Each iteration of the `while` loop attempts a TCP connect.  The pymodbus
call `self.client.connect()` can succeed (`if self.client.connect():`
returns `True`), raise an exception (caught by the `except` clause), or
return `False` — in which case the loop body simply falls through (the
original `raise ConnectionError` at lines 228-229 is commented out) and
the `while` re-iterates with no sleep, no attempt increment and no raise.
We model the sequence of attempt outcomes as a `List ConnectOutcome` and
the values drawn by `random.uniform(0, 1)` as a `List ℚ`.  The function
returns `(true, s)` on success and `(false, s)` when `max_retries` raising
failures are exhausted (the re-raise), where `s` is the list of backoff
sleeps performed, in order; `none` models running out of the supplied
trace. -/

/-- How one `self.client.connect()` attempt behaves. -/
inductive ConnectOutcome where
  | ok
  | returnedFalse
  | raised
deriving DecidableEq

/-- `min(self.config.max_backoff, (2 ** attempts) + random.uniform(0, 1))`. -/
def backoff_time (max_backoff : ℚ) (attempt : Nat) (jitter : ℚ) : ℚ :=
  min max_backoff (2 ^ attempt + jitter)

/-- The backoff sleeps for consecutive raising failures numbered
`start, start + 1, ...`, one per jitter value. -/
def backoff_sleeps (max_backoff : ℚ) (start : Nat) : List ℚ → List ℚ
  | [] => []
  | j :: js => backoff_time max_backoff start j :: backoff_sleeps max_backoff (start + 1) js

/-- Model of the retry loop of `PersistentModbusClient.connect`:
`attempts` starts at 0; an attempt that raises increments it and, if
`attempts >= max_retries`, the exception is re-raised (result `false`),
otherwise the loop sleeps `backoff_time` and retries; an attempt that
returns `False` falls through and the loop re-iterates directly. -/
def connect_loop (max_retries : Nat) (max_backoff : ℚ) :
    Nat → List ConnectOutcome → List ℚ → Option (Bool × List ℚ)
  | _, [], _ => none
  | _, .ok :: _, _ => some (true, [])
  | attempts, .returnedFalse :: outcomes, jitters =>
    connect_loop max_retries max_backoff attempts outcomes jitters
  | attempts, .raised :: outcomes, jitters =>
    if max_retries ≤ attempts + 1 then some (false, [])
    else
      match jitters with
      | [] => none
      | j :: js =>
        match connect_loop max_retries max_backoff (attempts + 1) outcomes js with
        | none => none
        | some (ok, sleeps) =>
          some (ok, backoff_time max_backoff (attempts + 1) j :: sleeps)

/-! ## `PersistentModbusClient.close` (lines 327-337) -/

/-- How the underlying `self.client.close()` call behaves. -/
inductive CloseOutcome where
  | ok
  | osError
  | otherError
deriving DecidableEq

/-- Model of `PersistentModbusClient.close`: if `self.client` is set, call
`self.client.close()` inside `try / except (socket.error, OSError) /
finally: self.client = None`.  Returns the new value of `self.client` and
the exception propagated to the caller, if any. -/
def pmc_close (client : Option Unit) (outcome : CloseOutcome) :
    Option Unit × Option CloseOutcome :=
  match client with
  | none => (none, none)
  | some _ =>
    (none,
      match outcome with
      | .ok => none
      | .osError => none
      | .otherError => some CloseOutcome.otherError)

/-! ## Process exit status (`__main__`, lines 543-549)

The script runs `parser.parse_args()` (argparse calls `sys.exit(2)` on a
CLI usage error), then `load_config`, then `start_server`, with no
`sys.exit` of its own and no try/except.  Modelled from Python runtime
semantics: a script that runs to completion exits with status 0; an
uncaught exception terminates the interpreter with status 1; argparse's
usage-error `SystemExit` carries status 2. -/

/-- Outcome of running the `__main__` block. -/
inductive MainResult where
  | finished
  | usageError
  | raisedConfigError
  | raisedRuntimeError
deriving DecidableEq

/-- `__main__`: `parser.parse_args()` exits on a CLI usage error; then
`load_config` may raise (validation or I/O error); then `start_server` may
raise (e.g. a bind failure propagating out of its `finally`); otherwise
the script finishes normally. -/
def main_run (args_ok config_ok runtime_ok : Bool) : MainResult :=
  if !args_ok then MainResult.usageError
  else if !config_ok then MainResult.raisedConfigError
  else if !runtime_ok then MainResult.raisedRuntimeError
  else MainResult.finished

/-- Exit status of the process for each outcome, per CPython and argparse
semantics: 0 on normal termination, 1 for any uncaught exception, 2 for
an argparse usage error. -/
def process_exit_code : MainResult → Nat
  | .finished => 0
  | .usageError => 2
  | .raisedConfigError => 1
  | .raisedRuntimeError => 1

/-- A well-formed response stream whose MBAP length field is `n`:
6 header bytes declaring length `n`, followed by `n` payload bytes. -/
def mk_response (n : Nat) : List Nat :=
  [0, 1, 0, 0, n / 256, n % 256] ++ List.replicate n 0

/-! ## Helper lemmas for `connect_loop` -/

/-- Unfolding lemma: a successful attempt returns at once. -/
theorem connect_loop_ok_cons (max_retries : Nat) (max_backoff : ℚ)
    (attempts : Nat) (outcomes : List ConnectOutcome) (jitters : List ℚ) :
    connect_loop max_retries max_backoff attempts
        (ConnectOutcome.ok :: outcomes) jitters =
      some (true, []) := rfl

/-- Unfolding lemma: an attempt where `connect()` returns `False` falls
through (the raise is commented out in the source): the loop re-iterates
with no sleep, no attempt increment and no raise. -/
theorem connect_loop_retfalse_cons (max_retries : Nat) (max_backoff : ℚ)
    (attempts : Nat) (outcomes : List ConnectOutcome) (jitters : List ℚ) :
    connect_loop max_retries max_backoff attempts
        (ConnectOutcome.returnedFalse :: outcomes) jitters =
      connect_loop max_retries max_backoff attempts outcomes jitters := rfl

/-- Unfolding lemma for an attempt that raises. -/
theorem connect_loop_raised_cons (max_retries : Nat) (max_backoff : ℚ)
    (attempts : Nat) (outcomes : List ConnectOutcome) (jitters : List ℚ) :
    connect_loop max_retries max_backoff attempts
        (ConnectOutcome.raised :: outcomes) jitters =
      if max_retries ≤ attempts + 1 then some (false, [])
      else
        match jitters with
        | [] => none
        | j :: js =>
          match connect_loop max_retries max_backoff (attempts + 1) outcomes js with
          | none => none
          | some (ok, sleeps) =>
            some (ok, backoff_time max_backoff (attempts + 1) j :: sleeps) := rfl

/-- If every attempt up to the retry budget fails, `connect_loop` gives up
(result `false`) after exactly the budgeted attempts, never touching the
remaining trace, having slept the backoff for failures `a+1, a+2, ...`. -/
theorem connect_loop_all_fail (max_retries : Nat) (max_backoff : ℚ) :
    ∀ (n a : Nat) (jitters : List ℚ) (rest : List ConnectOutcome) (jrest : List ℚ),
      a + n = max_retries → 1 ≤ n → jitters.length = n - 1 →
      connect_loop max_retries max_backoff a
          (List.replicate n ConnectOutcome.raised ++ rest) (jitters ++ jrest) =
        some (false, backoff_sleeps max_backoff (a + 1) jitters) := by
  intro n
  induction n with
  | zero => intro a jitters rest jrest _ h1 _; omega
  | succ m ih =>
    intro a jitters rest jrest hsum _ hlen
    cases m with
    | zero =>
      have hj : jitters = [] := List.length_eq_zero.mp (by simpa using hlen)
      subst hj
      rw [List.replicate_succ, List.replicate_zero, List.cons_append,
        List.nil_append, List.nil_append, connect_loop_raised_cons,
        if_pos (by omega)]
      rfl
    | succ k =>
      cases jitters with
      | nil => simp only [List.length_nil] at hlen; omega
      | cons j js =>
        have hlen' : js.length = k + 1 - 1 := by
          simp only [List.length_cons] at hlen
          omega
        have hrec := ih (a + 1) js rest jrest (by omega) (by omega) hlen'
        rw [List.replicate_succ, List.cons_append, List.cons_append,
          connect_loop_raised_cons, if_neg (by omega)]
        show (match connect_loop max_retries max_backoff (a + 1)
            (List.replicate (k + 1) ConnectOutcome.raised ++ rest) (js ++ jrest) with
          | none => none
          | some (ok, sleeps) =>
            some (ok, backoff_time max_backoff (a + 1) j :: sleeps)) =
          some (false, backoff_sleeps max_backoff (a + 1) (j :: js))
        rw [hrec]
        simp [backoff_sleeps]

/-- If the first `n` attempts fail and attempt `n + 1` succeeds within the
retry budget, `connect_loop` succeeds after sleeping the backoff for the
failures `a+1, ..., a+n`. -/
theorem connect_loop_fail_then_success (max_retries : Nat) (max_backoff : ℚ) :
    ∀ (n a : Nat) (jitters : List ℚ) (rest : List ConnectOutcome) (jrest : List ℚ),
      a + n < max_retries → jitters.length = n →
      connect_loop max_retries max_backoff a
          (List.replicate n ConnectOutcome.raised ++ ConnectOutcome.ok :: rest)
          (jitters ++ jrest) =
        some (true, backoff_sleeps max_backoff (a + 1) jitters) := by
  intro n
  induction n with
  | zero =>
    intro a jitters rest jrest _ hlen
    have hj : jitters = [] := List.length_eq_zero.mp hlen
    subst hj
    rw [List.replicate_zero, List.nil_append, List.nil_append,
      connect_loop_ok_cons]
    rfl
  | succ m ih =>
    intro a jitters rest jrest hlt hlen
    cases jitters with
    | nil => simp only [List.length_nil] at hlen; omega
    | cons j js =>
      have hlen' : js.length = m := by
        simp only [List.length_cons] at hlen
        omega
      have hrec := ih (a + 1) js rest jrest (by omega) hlen'
      rw [List.replicate_succ, List.cons_append, List.cons_append,
        connect_loop_raised_cons, if_neg (by omega)]
      show (match connect_loop max_retries max_backoff (a + 1)
          (List.replicate m ConnectOutcome.raised ++ ConnectOutcome.ok :: rest)
          (js ++ jrest) with
        | none => none
        | some (ok, sleeps) =>
          some (ok, backoff_time max_backoff (a + 1) j :: sleeps)) =
        some (true, backoff_sleeps max_backoff (a + 1) (j :: js))
      rw [hrec]
      simp [backoff_sleeps]

/-- The `i`-th backoff sleep (0-based) of a run starting at attempt
number `start` is `min max_backoff (2 ^ (start + i) + jitter_i)`. -/
theorem backoff_sleeps_getD (max_backoff : ℚ) :
    ∀ (jitters : List ℚ) (start i : Nat), i < jitters.length →
      (backoff_sleeps max_backoff start jitters).getD i 0 =
        min max_backoff (2 ^ (start + i) + jitters.getD i 0) := by
  intro jitters
  induction jitters with
  | nil => intro start i h; simp at h
  | cons j js ih =>
    intro start i h
    cases i with
    | zero => simp [backoff_sleeps, backoff_time]
    | succ i0 =>
      have h' : i0 < js.length := by
        simp only [List.length_cons] at h
        omega
      simp only [backoff_sleeps, List.getD_cons_succ]
      rw [ih (start + 1) i0 h']
      have harith : start + 1 + i0 = start + (i0 + 1) := by omega
      rw [harith]

/-! ## Claim theorems -/

/-- C1 counterexample.  The claim says every enqueued work item is exactly
one complete Modbus/TCP ADU (7 header bytes plus `length-1` PDU bytes).
In the code, `handle_client` enqueues whatever a single
`recv(DEFAULT_RECV_BUFFER_SIZE)` returns: a 4-byte partial header arriving
alone is enqueued as a work item even though it is not a complete ADU. -/
theorem c1_counterexample :
    handle_client_step false (RecvEvent.bytes [0, 1, 0, 0]) =
      HandlerAction.enqueue [0, 1, 0, 0] ∧
    isCompleteADU [0, 1, 0, 0] = false := by
  decide

/-- C1 amended: each work item enqueued by `handle_client` carries exactly
the raw bytes returned by one `recv` call, with no MBAP framing: a trace of
nonempty chunks is enqueued verbatim, chunk by chunk (so partial or
coalesced frames are enqueued as-is). -/
theorem c1_amended_enqueues_raw_chunks :
    ∀ (chunks : List (List Nat)), (∀ c ∈ chunks, c ≠ []) →
      handle_client_run false (chunks.map RecvEvent.bytes) = chunks := by
  intro chunks
  induction chunks with
  | nil => intro _; rfl
  | cons c cs ih =>
    intro h
    have hc : c ≠ [] := h c (List.mem_cons_self c cs)
    match c, hc with
    | b :: bs, _ =>
      show (b :: bs) :: handle_client_run false (cs.map RecvEvent.bytes) =
        (b :: bs) :: cs
      exact congrArg (List.cons (b :: bs))
        (ih fun x hx => h x (List.mem_cons_of_mem _ hx))

/-- Witness for the amended C1 at a concrete trace. -/
theorem c1_amended_witness :
    (∀ c ∈ [[0, 1, 0, 0], [5]], c ≠ ([] : List Nat)) ∧
    handle_client_run false ([[0, 1, 0, 0], [5]].map RecvEvent.bytes) =
      [[0, 1, 0, 0], [5]] :=
  ⟨by decide, c1_amended_enqueues_raw_chunks [[0, 1, 0, 0], [5]] (by decide)⟩

/-- C2 counterexample.  The claim says a frame whose declared length field
is 0 fails with a Malformed error and the connection is closed.  In the
code no such check exists: `send_request` reading a response whose MBAP
length field is 0 succeeds and returns the 6 header bytes. -/
theorem c2_counterexample :
    send_request [0, 1, 0, 0, 0, 6, 1, 3, 0, 0, 0, 1] [6] []
      [0, 1, 0, 0, 0, 0] = some [0, 1, 0, 0, 0, 0] := by
  decide

/-- C2 amended: the declared length field is never validated — for any
declared length `n` (including 0 and values above 260), `send_request`
reads the declared number of bytes and returns the frame successfully;
no Malformed error exists and the connection is not closed for that
reason. -/
theorem c2_amended_no_length_validation (data : List Nat) (n : Nat)
    (h : n ≤ 65535) :
    send_request data (List.replicate 1 DEFAULT_RECV_BUFFER_SIZE)
      (List.replicate (n + 1) DEFAULT_RECV_BUFFER_SIZE)
      (mk_response n) = some (mk_response n) := by
  have _ := h
  have hmk : mk_response n = [0, 1, 0, 0, n / 256, n % 256] ++ List.replicate n 0 := rfl
  have h6 : (6 : Nat) ≤ (mk_response n).length := by simp [mk_response]
  have h1 := read_exact_success 1 (mk_response n) 6 h6 (by decide)
  have htake : (mk_response n).take 6 = [0, 1, 0, 0, n / 256, n % 256] := rfl
  have hdrop : (mk_response n).drop 6 = List.replicate n 0 := rfl
  unfold send_request
  rw [show MODBUS_TCP_HEADER_LENGTH = 6 from rfl, h1, htake, hdrop]
  show (match read_exact (List.replicate (n + 1) DEFAULT_RECV_BUFFER_SIZE)
      (List.replicate n 0)
      (([0, 1, 0, 0, n / 256, n % 256] : List Nat).getD 4 0 * 256 +
        ([0, 1, 0, 0, n / 256, n % 256] : List Nat).getD 5 0) with
    | none => none
    | some (pdu, _) => some ([0, 1, 0, 0, n / 256, n % 256] ++ pdu)) =
      some (mk_response n)
  have hgd : ([0, 1, 0, 0, n / 256, n % 256] : List Nat).getD 4 0 * 256 +
      ([0, 1, 0, 0, n / 256, n % 256] : List Nat).getD 5 0 = n := by
    simp only [List.getD_cons_succ, List.getD_cons_zero]
    omega
  rw [hgd]
  have h2 := read_exact_success (n + 1) (List.replicate n 0) n
    (by simp) (by simp only [DEFAULT_RECV_BUFFER_SIZE]; omega)
  rw [h2]
  show some (([0, 1, 0, 0, n / 256, n % 256] : List Nat) ++
    (List.replicate n (0 : Nat)).take n) = some (mk_response n)
  rw [List.take_replicate, min_self, hmk]

/-- Witness for the amended C2 at declared length 300 (above the 260
ceiling the claim mentions): the frame is still read in full and
returned. -/
theorem c2_amended_witness :
    (300 : Nat) ≤ 65535 ∧
    send_request [] (List.replicate 1 DEFAULT_RECV_BUFFER_SIZE)
      (List.replicate 301 DEFAULT_RECV_BUFFER_SIZE)
      (mk_response 300) = some (mk_response 300) :=
  ⟨by decide, c2_amended_no_length_validation [] 300 (by decide)⟩

/-- C3 counterexample.  The claim says that with ReadOnly enabled a frame
with write function code 0x06 is silently dropped and never enqueued.  The
code has no ReadOnly option at all (the cerberus schema knows only the
sections Proxy, ModbusServer and Logging — no Security section) and
`handle_client` inspects no function code: the Write Single Register frame
is enqueued for forwarding. -/
theorem c3_counterexample :
    ([0, 1, 0, 0, 0, 6, 1, 6, 0, 0, 0, 1] : List Nat).getD 7 0 = 6 ∧
    handle_client_step false
        (RecvEvent.bytes [0, 1, 0, 0, 0, 6, 1, 6, 0, 0, 0, 1]) =
      HandlerAction.enqueue [0, 1, 0, 0, 0, 6, 1, 6, 0, 0, 0, 1] ∧
    "Security" ∉ config_schema_sections := by
  refine ⟨rfl, rfl, ?_⟩
  decide

/-- C3 amended: the configuration schema recognises no ReadOnly option
(only the sections Proxy, ModbusServer, Logging), and the client handler
performs no function-code filtering: every nonempty received chunk —
including one whose byte 7 is a Modbus write function code — is enqueued
for forwarding. -/
theorem c3_amended_no_readonly_filter (c : List Nat)
    (hfc : c.getD 7 0 ∈ ([5, 6, 15, 16, 22, 23] : List Nat)) (hne : c ≠ []) :
    handle_client_step false (RecvEvent.bytes c) = HandlerAction.enqueue c ∧
      config_schema_sections = ["Proxy", "ModbusServer", "Logging"] := by
  have _ := hfc
  refine ⟨?_, rfl⟩
  match c, hne with
  | b :: bs, _ => rfl

/-- Witness for the amended C3 at the Write Single Register frame. -/
theorem c3_amended_witness :
    (([0, 1, 0, 0, 0, 6, 1, 6, 0, 0, 0, 1] : List Nat).getD 7 0 ∈
      ([5, 6, 15, 16, 22, 23] : List Nat)) ∧
    ([0, 1, 0, 0, 0, 6, 1, 6, 0, 0, 0, 1] : List Nat) ≠ [] ∧
    (handle_client_step false
        (RecvEvent.bytes [0, 1, 0, 0, 0, 6, 1, 6, 0, 0, 0, 1]) =
      HandlerAction.enqueue [0, 1, 0, 0, 0, 6, 1, 6, 0, 0, 0, 1] ∧
      config_schema_sections = ["Proxy", "ModbusServer", "Logging"]) :=
  ⟨by decide, by decide,
    c3_amended_no_readonly_filter [0, 1, 0, 0, 0, 6, 1, 6, 0, 0, 0, 1]
      (by decide) (by decide)⟩

/-- C4 (confirmed): every response successfully returned by `send_request`
has length exactly `6 + length = 7 + (length - 1)` where `length` is its
MBAP length field — never more, never fewer. -/
theorem c4_response_length (data sched1 sched2 stream response : List Nat)
    (h : send_request data sched1 sched2 stream = some response) :
    response.length = 6 + len_field response ∧
      (response.length : ℤ) = 7 + ((len_field response : ℤ) - 1) := by
  unfold send_request at h
  match h1 : read_exact sched1 stream MODBUS_TCP_HEADER_LENGTH with
  | none => rw [h1] at h; exact absurd h (by simp)
  | some (header, rest) =>
    rw [h1] at h
    dsimp only at h
    obtain ⟨hh1, hh2, hh3, hh4⟩ := read_exact_eq _ _ _ _ _ h1
    match h2 : read_exact sched2 rest (header.getD 4 0 * 256 + header.getD 5 0) with
    | none => rw [h2] at h; exact absurd h (by simp)
    | some (pdu, rest2) =>
      rw [h2] at h
      simp only [Option.some.injEq] at h
      obtain ⟨hp1, hp2, hp3, hp4⟩ := read_exact_eq _ _ _ _ _ h2
      have hlenh : header.length = 6 := hh3
      have hlf : len_field response = header.getD 4 0 * 256 + header.getD 5 0 := by
        rw [← h]
        unfold len_field
        rw [List.getD_append _ _ _ _ (by omega), List.getD_append _ _ _ _ (by omega)]
      have hlen : response.length = 6 + (header.getD 4 0 * 256 + header.getD 5 0) := by
        rw [← h]
        simp only [List.length_append, hlenh, hp3]
      constructor
      · rw [hlf]; exact hlen
      · rw [hlf, hlen]
        push_cast
        ring

/-- Witness for C4 at a concrete exchange: a response with length field 2. -/
theorem c4_witness :
    send_request [0] [6] [2] [0, 1, 0, 0, 0, 2, 1, 131] =
        some [0, 1, 0, 0, 0, 2, 1, 131] ∧
    (([0, 1, 0, 0, 0, 2, 1, 131] : List Nat).length =
        6 + len_field [0, 1, 0, 0, 0, 2, 1, 131] ∧
      (([0, 1, 0, 0, 0, 2, 1, 131] : List Nat).length : ℤ) =
        7 + ((len_field [0, 1, 0, 0, 0, 2, 1, 131] : ℤ) - 1)) :=
  ⟨by decide, c4_response_length [0] [6] [2] [0, 1, 0, 0, 0, 2, 1, 131]
    [0, 1, 0, 0, 0, 2, 1, 131] (by decide)⟩

/-- C5 counterexample.  The claim says every failed connect attempt
(1 ≤ n < maxRetries) is followed by a sleep of exactly
`min(maxBackoff, 2^n + jitter)`, and that reaching maxRetries failed
attempts raises.  But pymodbus `connect()` signals failure by returning
`False` — exactly how the repository's own tests mock it
(`connect.side_effect = [False, False, True]`) — and on that path the
`if self.client.connect():` fall-through (the raise at source lines
228-229 is commented out) re-iterates the loop with no sleep, no attempt
increment and no raise: with maxRetries = 3, three consecutive failed
attempts followed by a success return a connected result with an empty
sleep list and no exception ever raised. -/
theorem c5_counterexample :
    connect_loop 3 30 0
      [ConnectOutcome.returnedFalse, ConnectOutcome.returnedFalse,
        ConnectOutcome.returnedFalse, ConnectOutcome.ok] [] =
      some (true, []) := rfl

/-- C5 amended: backoff and the retry budget govern only connect attempts
that fail by raising an exception: after the n-th consecutive raising
failure (1 ≤ n < maxRetries) the loop sleeps exactly
`min(maxBackoff, 2^n + jitter_n)` and retries, and once raising failures
reach maxRetries it re-raises without consuming any further attempt of
the trace; the `i`-th sleep (0-based) of a run started at attempt 0 is
`min(maxBackoff, 2^(i+1) + jitter_i)`.  An attempt where `connect()`
returns `False` instead falls through: the loop retries immediately with
no sleep, no attempt increment, and no raise on that path. -/
theorem c5_connect_backoff (max_retries n : Nat) (max_backoff : ℚ)
    (jitters : List ℚ) (rest outcomes : List ConnectOutcome)
    (jrest js2 : List ℚ) (attempts : Nat) :
    (1 ≤ n → n < max_retries → jitters.length = n →
      connect_loop max_retries max_backoff 0
          (List.replicate n ConnectOutcome.raised ++ ConnectOutcome.ok :: rest)
          (jitters ++ jrest) =
        some (true, backoff_sleeps max_backoff 1 jitters)) ∧
    (1 ≤ max_retries → jitters.length = max_retries - 1 →
      connect_loop max_retries max_backoff 0
          (List.replicate max_retries ConnectOutcome.raised ++ rest)
          (jitters ++ jrest) =
        some (false, backoff_sleeps max_backoff 1 jitters)) ∧
    (∀ i, i < jitters.length →
      (backoff_sleeps max_backoff 1 jitters).getD i 0 =
        min max_backoff (2 ^ (i + 1) + jitters.getD i 0)) ∧
    (connect_loop max_retries max_backoff attempts
        (ConnectOutcome.returnedFalse :: outcomes) js2 =
      connect_loop max_retries max_backoff attempts outcomes js2) := by
  refine ⟨?_, ?_, ?_, rfl⟩
  · intro h1 h2 h3
    exact connect_loop_fail_then_success max_retries max_backoff n 0
      jitters rest jrest (by omega) h3
  · intro h1 h2
    exact connect_loop_all_fail max_retries max_backoff max_retries 0
      jitters rest jrest (by omega) h1 h2
  · intro i hi
    rw [backoff_sleeps_getD max_backoff jitters 1 i hi]
    have harith : 1 + i = i + 1 := by omega
    rw [harith]

/-- Witness for the amended C5: budget 3, two raising failures then
success, the first sleep's value, and the zero-cost fall-through of a
False-returning attempt, at concrete inputs. -/
theorem c5_witness :
    ((1 : Nat) ≤ 2 ∧ 2 < 3 ∧ ([(1 : ℚ) / 2, 1 / 4] : List ℚ).length = 2 ∧
      connect_loop 3 30 0
          (List.replicate 2 ConnectOutcome.raised ++ ConnectOutcome.ok :: [])
          ([(1 : ℚ) / 2, 1 / 4] ++ []) =
        some (true, backoff_sleeps 30 1 [(1 : ℚ) / 2, 1 / 4])) ∧
    ((backoff_sleeps 30 1 [(1 : ℚ) / 2, 1 / 4]).getD 0 0 =
      min 30 (2 ^ 1 + (1 : ℚ) / 2)) ∧
    (connect_loop 3 30 1 (ConnectOutcome.returnedFalse :: [ConnectOutcome.ok]) [] =
      connect_loop 3 30 1 [ConnectOutcome.ok] []) :=
  ⟨⟨by decide, by decide, by decide,
      (c5_connect_backoff 3 2 30 [(1 : ℚ) / 2, 1 / 4] [] [] [] [] 0).1
        (by decide) (by decide) (by decide)⟩,
    (c5_connect_backoff 3 2 30 [(1 : ℚ) / 2, 1 / 4] [] [] [] [] 0).2.2.1 0
      (by decide),
    (c5_connect_backoff 3 2 30 [(1 : ℚ) / 2, 1 / 4] []
      [ConnectOutcome.ok] [] [] 1).2.2.2⟩

/-- C6 (confirmed): with an empty allow-list the IP check never rejects —
admission depends only on the semaphore; with a non-empty allow-list and a
client IP in none of the networks the socket is closed and no handler is
spawned; and a singleton IP entry parses to its /32 host network, which
contains exactly that address. -/
theorem c6_allow_list (allowed_networks : List IPNetwork) (client_ip : Nat)
    (semaphore_acquired : Bool) (a : Nat) :
    (accept_decision [] client_ip semaphore_acquired =
      if semaphore_acquired then AcceptAction.spawnHandler
      else AcceptAction.closeMaxConnections) ∧
    (allowed_networks ≠ [] →
      (∀ net ∈ allowed_networks, net_contains net client_ip = false) →
      accept_decision allowed_networks client_ip semaphore_acquired =
        AcceptAction.closeNotAllowed) ∧
    (parse_entry (AllowedEntry.singleIP a) = ⟨a, 32⟩ ∧
      (net_contains (parse_entry (AllowedEntry.singleIP a)) client_ip = true ↔
        client_ip = a)) := by
  refine ⟨?_, ?_, rfl, ?_⟩
  · cases semaphore_acquired <;> rfl
  · intro hne hnone
    match allowed_networks, hne with
    | net0 :: nets, _ =>
      have hany : ((net0 :: nets).any fun net => net_contains net client_ip) = false := by
        rw [List.any_eq_false]
        intro x hx
        simp [hnone x hx]
      unfold accept_decision
      rw [hany]
      rfl
  · simp [net_contains, parse_entry, Nat.div_one]

/-- Witness for C6: client 127.0.0.1 against allow-list [10.0.0.0/8] is
closed without a handler. -/
theorem c6_witness :
    accept_decision [⟨167772160, 8⟩] 2130706433 true =
      AcceptAction.closeNotAllowed :=
  (c6_allow_list [⟨167772160, 8⟩] 2130706433 true 0).2.1
    (by decide) (by decide)

/-- C7 counterexample.  The claim says that after the 60-second read
timeout with shutdown not signalled the handler closes the connection.
In the code the `socket.timeout` handler executes `continue` when the stop
event is not set: the loop keeps waiting on the idle client. -/
theorem c7_counterexample :
    handle_client_step false RecvEvent.timeout = HandlerAction.continueLoop ∧
      HandlerAction.continueLoop ≠ HandlerAction.exitLoop := by
  decide

/-- C7 amended: on a read timeout the handler exits (closing the
connection) only when shutdown has been signalled; otherwise it continues
the loop, so an idle client is kept open indefinitely. -/
theorem c7_amended_timeout_continues (stop_set : Bool) :
    handle_client_step stop_set RecvEvent.timeout =
      if stop_set then HandlerAction.exitLoop else HandlerAction.continueLoop := rfl

/-- C8 counterexample.  The claim says a fatal runtime error (e.g. bind
failure) exits with status 2.  The script never calls `sys.exit` itself;
an uncaught exception from `start_server` makes the interpreter exit with
status 1, not 2. -/
theorem c8_counterexample :
    process_exit_code (main_run true true false) = 1 ∧
      process_exit_code (main_run true true false) ≠ 2 := by
  decide

/-- C8 amended: the exit code is 0 on clean shutdown; 1 both on a
configuration error and on a fatal runtime error such as a bind failure
(CPython's uncaught-exception status, never 2 for those); status 2 occurs
only for an argparse CLI usage error raised inside `parse_args`. -/
theorem c8_amended_exit_codes (config_ok runtime_ok : Bool) :
    process_exit_code (main_run true true true) = 0 ∧
    process_exit_code (main_run true false runtime_ok) = 1 ∧
    process_exit_code (main_run true true false) = 1 ∧
    process_exit_code (main_run false config_ok runtime_ok) = 2 := by
  cases config_ok <;> cases runtime_ok <;> exact ⟨rfl, rfl, rfl, rfl⟩

/-- C10 (confirmed): `PersistentModbusClient.close` never propagates a
socket/OS error (the `except (socket.error, OSError)` clause swallows it);
the `finally` block sets `self.client = None` for every outcome, including
a raising close; and a second call is a harmless no-op. -/
theorem c10_close_safety (client : Option Unit) (outcome outcome2 : CloseOutcome) :
    (pmc_close client CloseOutcome.osError).2 = none ∧
    (pmc_close client outcome).1 = none ∧
    pmc_close (pmc_close client outcome).1 outcome2 = (none, none) := by
  cases client <;> cases outcome <;> exact ⟨rfl, rfl, rfl⟩

/-! ## `merge_config.py`: `recursive_update`

YAML values are modelled as scalars (`atom`, carrying a number — the
non-`dict`, non-`str` case of Python values) and string-keyed dictionaries.
Dictionaries keep insertion order, as Python dicts do; `insertD` models
`user[key] = value` (replace in place, or append for a new key). -/

mutual

inductive YVal where
  | atom : Nat → YVal
  | dict : YDict → YVal

inductive YDict where
  | nil : YDict
  | cons : String → YVal → YDict → YDict

end

/-- Spine recursion for `YDict` (the default eliminator of the mutual
inductive has two motives, which the `induction` tactic cannot use). -/
def YDict.rec_spine {motive : YDict → Prop} (nilCase : motive .nil)
    (consCase : ∀ (k : String) (v : YVal) (rest : YDict),
      motive rest → motive (.cons k v rest)) :
    ∀ d, motive d
  | .nil => nilCase
  | .cons k v rest => consCase k v rest (rec_spine nilCase consCase rest)

/-- `user[key]` / `key in user`: first entry with the given key. -/
def lookupD : YDict → String → Option YVal
  | .nil, _ => none
  | .cons k v rest, key => if k = key then some v else lookupD rest key

/-- `user[key] = value`: replace the existing entry in place, or append. -/
def insertD : YDict → String → YVal → YDict
  | .nil, key, v => .cons key v .nil
  | .cons k v0 rest, key, v =>
    if k = key then .cons k v rest else .cons k v0 (insertD rest key v)

mutual

/-- Every nested dictionary below this value has pairwise-distinct keys
(Python dicts guarantee this). -/
def nodup_keysV : YVal → Bool
  | .atom _ => true
  | .dict d => nodup_keysD d

/-- The dictionary and all its nested dictionaries have distinct keys. -/
def nodup_keysD : YDict → Bool
  | .nil => true
  | .cons k v rest =>
    !(lookupD rest k).isSome && nodup_keysV v && nodup_keysD rest

end

mutual

/-- The precondition of the claim, recursively: wherever default and user
both have a value at a key, either both are dictionaries or the default
value is not a dictionary. -/
def compatV : YVal → YVal → Bool
  | .atom _, _ => true
  | .dict dd, .dict ud => compatD dd ud
  | .dict _, .atom _ => false

/-- `compatV` at every key present in both dictionaries. -/
def compatD : YDict → YDict → Bool
  | .nil, _ => true
  | .cons k dv rest, u =>
    (match lookupD u k with
     | none => true
     | some uv => compatV dv uv) && compatD rest u

end

/-- Model of `recursive_update(default, user)` (merge_config.py lines
45-63).  The loop runs over the default's entries in order, mutating the
user value:
* `isinstance(value, dict) and key in user` → recurse and assign;
* `key not in user` → insert the default value;
* otherwise leave the user's value alone.
A non-dict `user` is returned unchanged when the default dict is empty
(the loop body never runs); with a non-empty default, `key in user` on a
scalar raises `TypeError`, modelled as `none`. -/
def recursive_update : YDict → YVal → Option YVal
  | .nil, u => some u
  | .cons _ _ _, .atom _ => none
  | .cons k (.atom a) rest, .dict ud =>
    match lookupD ud k with
    | some _ => recursive_update rest (.dict ud)
    | none => recursive_update rest (.dict (insertD ud k (.atom a)))
  | .cons k (.dict dvd) rest, .dict ud =>
    match lookupD ud k with
    | some uv =>
      match recursive_update dvd uv with
      | none => none
      | some merged => recursive_update rest (.dict (insertD ud k merged))
    | none => recursive_update rest (.dict (insertD ud k (.dict dvd)))

/-- The value found at a (nonempty) path of keys, descending through
nested dictionaries. -/
def getPathD : YDict → List String → Option YVal
  | _, [] => none
  | d, [k] => lookupD d k
  | d, k :: p =>
    match lookupD d k with
    | some (.dict dd) => getPathD dd p
    | _ => none

/-- Pointwise description of the merged dictionary: at a key where both
sides hold dictionaries the results are merged recursively; any other key
present in the user keeps the user's value; keys only in the default get
the default's value. -/
def rupd_lookup_spec (d u : YDict) (k : String) : Option YVal :=
  match lookupD d k, lookupD u k with
  | some (.dict dd), some (.dict ud) => recursive_update dd (.dict ud)
  | _, some uv => some uv
  | some dv, none => some dv
  | none, none => none

/-! ### Helper lemmas for `recursive_update` -/

theorem recursive_update_cons_atom (k : String) (a : Nat) (rest ud : YDict) :
    recursive_update (.cons k (.atom a) rest) (.dict ud) =
      match lookupD ud k with
      | some _ => recursive_update rest (.dict ud)
      | none => recursive_update rest (.dict (insertD ud k (.atom a))) := by
  simp only [recursive_update]

theorem recursive_update_cons_dict (k : String) (dvd rest ud : YDict) :
    recursive_update (.cons k (.dict dvd) rest) (.dict ud) =
      match lookupD ud k with
      | some uv =>
        match recursive_update dvd uv with
        | none => none
        | some merged => recursive_update rest (.dict (insertD ud k merged))
      | none => recursive_update rest (.dict (insertD ud k (.dict dvd))) := by
  simp only [recursive_update]

theorem lookupD_insertD_self (u : YDict) (k : String) (v : YVal) :
    lookupD (insertD u k v) k = some v := by
  induction u using YDict.rec_spine with
  | nilCase => simp [insertD, lookupD]
  | consCase k0 v0 rest ih =>
    by_cases hk : k0 = k
    · subst hk
      simp [insertD, lookupD]
    · simp only [insertD, if_neg hk, lookupD]
      exact ih

theorem lookupD_insertD_ne (u : YDict) (k k2 : String) (v : YVal)
    (h : k ≠ k2) :
    lookupD (insertD u k v) k2 = lookupD u k2 := by
  induction u using YDict.rec_spine with
  | nilCase => simp [insertD, lookupD, if_neg h]
  | consCase k0 v0 rest ih =>
    by_cases hk : k0 = k
    · subst hk
      simp only [insertD, if_pos rfl, lookupD]
      rw [if_neg h, if_neg h]
    · simp only [insertD, if_neg hk, lookupD]
      by_cases hk2 : k0 = k2
      · rw [if_pos hk2, if_pos hk2]
      · rw [if_neg hk2, if_neg hk2]
        exact ih

theorem nodup_keysD_cons (k : String) (v : YVal) (rest : YDict)
    (h : nodup_keysD (.cons k v rest) = true) :
    lookupD rest k = none ∧ nodup_keysV v = true ∧ nodup_keysD rest = true := by
  simp only [nodup_keysD, Bool.and_eq_true, Bool.not_eq_true'] at h
  obtain ⟨⟨h1, h2⟩, h3⟩ := h
  refine ⟨?_, h2, h3⟩
  cases hl : lookupD rest k with
  | none => rfl
  | some v0 => rw [hl] at h1; simp at h1

theorem compatD_cons (k : String) (dv : YVal) (rest u : YDict)
    (h : compatD (.cons k dv rest) u = true) :
    (∀ uv, lookupD u k = some uv → compatV dv uv = true) ∧
      compatD rest u = true := by
  simp only [compatD, Bool.and_eq_true] at h
  obtain ⟨h1, h2⟩ := h
  refine ⟨?_, h2⟩
  intro uv huv
  rw [huv] at h1
  exact h1

theorem compatD_congr (rest : YDict) :
    ∀ (u u2 : YDict),
      (∀ k, (lookupD rest k).isSome = true → lookupD u2 k = lookupD u k) →
      compatD rest u = true → compatD rest u2 = true := by
  induction rest using YDict.rec_spine with
  | nilCase => intro u u2 _ _; rfl
  | consCase k dv r ih =>
    intro u u2 hsame hc
    obtain ⟨h1, h2⟩ := compatD_cons k dv r u hc
    have hk : lookupD u2 k = lookupD u k := by
      apply hsame
      simp [lookupD]
    have hr : compatD r u2 = true := by
      apply ih u u2 ?_ h2
      intro k2 hk2
      apply hsame
      simp only [lookupD]
      by_cases hkk : k = k2
      · rw [if_pos hkk]; rfl
      · rw [if_neg hkk]; exact hk2
    simp only [compatD, Bool.and_eq_true]
    refine ⟨?_, hr⟩
    rw [hk]
    cases hu : lookupD u k with
    | none => rfl
    | some uv => exact h1 uv hu

theorem compatD_lookup (d : YDict) :
    ∀ (u : YDict) (k : String) (dv uv : YVal),
      compatD d u = true → lookupD d k = some dv → lookupD u k = some uv →
      compatV dv uv = true := by
  induction d using YDict.rec_spine with
  | nilCase => intro u k dv uv _ hd _; simp [lookupD] at hd
  | consCase k0 dv0 rest ih =>
    intro u k dv uv hc hd hu
    obtain ⟨h1, h2⟩ := compatD_cons k0 dv0 rest u hc
    simp only [lookupD] at hd
    by_cases hk : k0 = k
    · rw [if_pos hk] at hd
      cases hd
      subst hk
      exact h1 uv hu
    · rw [if_neg hk] at hd
      exact ih u k dv uv h2 hd hu

theorem nodup_keysD_lookup (d : YDict) :
    ∀ (k : String) (v : YVal), nodup_keysD d = true → lookupD d k = some v →
      nodup_keysV v = true := by
  induction d using YDict.rec_spine with
  | nilCase => intro k v _ hd; simp [lookupD] at hd
  | consCase k0 v0 rest ih =>
    intro k v hn hd
    obtain ⟨h1, h2, h3⟩ := nodup_keysD_cons k0 v0 rest hn
    simp only [lookupD] at hd
    by_cases hk : k0 = k
    · rw [if_pos hk] at hd
      cases hd
      exact h2
    · rw [if_neg hk] at hd
      exact ih k v h3 hd

mutual

/-- Size measure for values (for fuel induction over nested dicts). -/
def ysizeV : YVal → Nat
  | .atom _ => 1
  | .dict d => 1 + ysizeD d

/-- Size measure for dictionaries. -/
def ysizeD : YDict → Nat
  | .nil => 1
  | .cons _ v rest => 1 + ysizeV v + ysizeD rest

end

/-- Pointwise characterisation of `recursive_update` on dictionaries: under
the claim's compatibility precondition (and distinct keys in the default,
as Python dicts guarantee), the merge succeeds and the merged dictionary
looks up according to `rupd_lookup_spec`. -/
theorem recursive_update_spec_aux :
    ∀ (fuel : Nat) (d u : YDict), ysizeD d < fuel →
      nodup_keysD d = true → compatD d u = true →
      ∃ m : YDict, recursive_update d (.dict u) = some (.dict m) ∧
        ∀ k, lookupD m k = rupd_lookup_spec d u k := by
  intro fuel
  induction fuel with
  | zero => intro d u h _ _; omega
  | succ f ih =>
    intro d u hsize hnd hc
    cases d with
    | nil =>
      refine ⟨u, rfl, ?_⟩
      intro k
      unfold rupd_lookup_spec
      simp only [lookupD]
      cases lookupD u k with
      | none => rfl
      | some uv => rfl
    | cons k0 dv0 rest =>
      obtain ⟨hlk0, hnv0, hnr⟩ := nodup_keysD_cons k0 dv0 rest hnd
      obtain ⟨hcv0, hcr⟩ := compatD_cons k0 dv0 rest u hc
      cases dv0 with
      | atom a =>
        have hszr : ysizeD rest < f := by
          simp only [ysizeD, ysizeV] at hsize
          omega
        cases hu : lookupD u k0 with
        | some uv =>
          obtain ⟨m, hm, hspec⟩ := ih rest u hszr hnr hcr
          refine ⟨m, ?_, ?_⟩
          · rw [recursive_update_cons_atom, hu]
            exact hm
          · intro k
            rw [hspec k]
            unfold rupd_lookup_spec
            by_cases hk : k0 = k
            · subst hk
              rw [hlk0, hu]
              have hcons : lookupD (YDict.cons k0 (YVal.atom a) rest) k0 =
                  some (YVal.atom a) := by
                simp [lookupD]
              rw [hcons]
            · have h1 : lookupD (YDict.cons k0 (YVal.atom a) rest) k =
                  lookupD rest k := by
                simp only [lookupD, if_neg hk]
              rw [h1]
        | none =>
          have hcr' : compatD rest (insertD u k0 (YVal.atom a)) = true := by
            apply compatD_congr rest u _ ?_ hcr
            intro k2 hk2
            have hne : k0 ≠ k2 := by
              intro he
              subst he
              rw [hlk0] at hk2
              simp at hk2
            exact lookupD_insertD_ne u k0 k2 _ hne
          obtain ⟨m, hm, hspec⟩ := ih rest (insertD u k0 (YVal.atom a)) hszr hnr hcr'
          refine ⟨m, ?_, ?_⟩
          · rw [recursive_update_cons_atom, hu]
            exact hm
          · intro k
            rw [hspec k]
            unfold rupd_lookup_spec
            by_cases hk : k0 = k
            · subst hk
              rw [hlk0, hu, lookupD_insertD_self]
              have hcons : lookupD (YDict.cons k0 (YVal.atom a) rest) k0 =
                  some (YVal.atom a) := by
                simp [lookupD]
              rw [hcons]
            · have h1 : lookupD (YDict.cons k0 (YVal.atom a) rest) k =
                  lookupD rest k := by
                simp only [lookupD, if_neg hk]
              have h2 : lookupD (insertD u k0 (YVal.atom a)) k = lookupD u k :=
                lookupD_insertD_ne u k0 k _ hk
              rw [h1, h2]
      | dict dvd =>
        have hszr : ysizeD rest < f := by
          simp only [ysizeD, ysizeV] at hsize
          omega
        have hszd : ysizeD dvd < f := by
          simp only [ysizeD, ysizeV] at hsize
          omega
        have hnd' : nodup_keysD dvd = true := by
          simpa [nodup_keysV] using hnv0
        cases hu : lookupD u k0 with
        | some uv =>
          have hcv := hcv0 uv hu
          cases uv with
          | atom b => simp [compatV] at hcv
          | dict udd =>
            have hcdd : compatD dvd udd = true := by
              simpa [compatV] using hcv
            obtain ⟨md, hmd, hspecd⟩ := ih dvd udd hszd hnd' hcdd
            have hcr' : compatD rest (insertD u k0 (YVal.dict md)) = true := by
              apply compatD_congr rest u _ ?_ hcr
              intro k2 hk2
              have hne : k0 ≠ k2 := by
                intro he
                subst he
                rw [hlk0] at hk2
                simp at hk2
              exact lookupD_insertD_ne u k0 k2 _ hne
            obtain ⟨m, hm, hspec⟩ :=
              ih rest (insertD u k0 (YVal.dict md)) hszr hnr hcr'
            refine ⟨m, ?_, ?_⟩
            · rw [recursive_update_cons_dict, hu]
              show (match recursive_update dvd (YVal.dict udd) with
                | none => none
                | some merged =>
                  recursive_update rest (YVal.dict (insertD u k0 merged))) =
                some (YVal.dict m)
              rw [hmd]
              exact hm
            · intro k
              rw [hspec k]
              unfold rupd_lookup_spec
              by_cases hk : k0 = k
              · subst hk
                rw [hlk0, hu, lookupD_insertD_self]
                have hcons : lookupD (YDict.cons k0 (YVal.dict dvd) rest) k0 =
                    some (YVal.dict dvd) := by
                  simp [lookupD]
                rw [hcons]
                show some (YVal.dict md) = recursive_update dvd (YVal.dict udd)
                exact hmd.symm
              · have h1 : lookupD (YDict.cons k0 (YVal.dict dvd) rest) k =
                    lookupD rest k := by
                  simp only [lookupD, if_neg hk]
                have h2 : lookupD (insertD u k0 (YVal.dict md)) k = lookupD u k :=
                  lookupD_insertD_ne u k0 k _ hk
                rw [h1, h2]
        | none =>
          have hcr' : compatD rest (insertD u k0 (YVal.dict dvd)) = true := by
            apply compatD_congr rest u _ ?_ hcr
            intro k2 hk2
            have hne : k0 ≠ k2 := by
              intro he
              subst he
              rw [hlk0] at hk2
              simp at hk2
            exact lookupD_insertD_ne u k0 k2 _ hne
          obtain ⟨m, hm, hspec⟩ :=
            ih rest (insertD u k0 (YVal.dict dvd)) hszr hnr hcr'
          refine ⟨m, ?_, ?_⟩
          · rw [recursive_update_cons_dict, hu]
            exact hm
          · intro k
            rw [hspec k]
            unfold rupd_lookup_spec
            by_cases hk : k0 = k
            · subst hk
              rw [hlk0, hu, lookupD_insertD_self]
              have hcons : lookupD (YDict.cons k0 (YVal.dict dvd) rest) k0 =
                  some (YVal.dict dvd) := by
                simp [lookupD]
              rw [hcons]
            · have h1 : lookupD (YDict.cons k0 (YVal.dict dvd) rest) k =
                  lookupD rest k := by
                simp only [lookupD, if_neg hk]
              have h2 : lookupD (insertD u k0 (YVal.dict dvd)) k = lookupD u k :=
                lookupD_insertD_ne u k0 k _ hk
              rw [h1, h2]

/-- `recursive_update` on compatible dictionaries with distinct default
keys always succeeds, with the pointwise description of the result. -/
theorem recursive_update_spec (d u : YDict)
    (hnd : nodup_keysD d = true) (hc : compatD d u = true) :
    ∃ m : YDict, recursive_update d (.dict u) = some (.dict m) ∧
      ∀ k, lookupD m k = rupd_lookup_spec d u k :=
  recursive_update_spec_aux (ysizeD d + 1) d u (by omega) hnd hc

/-! ### Path lemmas -/

theorem getPathD_cons_cons_dict (d dd : YDict) (k k2 : String)
    (p : List String) (h : lookupD d k = some (.dict dd)) :
    getPathD d (k :: k2 :: p) = getPathD dd (k2 :: p) := by
  simp only [getPathD, h]

theorem getPathD_cons_cons_atom (d : YDict) (k k2 : String)
    (p : List String) (b : Nat) (h : lookupD d k = some (.atom b)) :
    getPathD d (k :: k2 :: p) = none := by
  simp only [getPathD, h]

theorem getPathD_cons_cons_none (d : YDict) (k k2 : String)
    (p : List String) (h : lookupD d k = none) :
    getPathD d (k :: k2 :: p) = none := by
  simp only [getPathD, h]

/-- Merging never disturbs a scalar the user already has, at any depth. -/
theorem rupd_preserves_user_atoms :
    ∀ (p : List String) (d u m : YDict) (a : Nat),
      nodup_keysD d = true → compatD d u = true →
      recursive_update d (.dict u) = some (.dict m) →
      getPathD u p = some (.atom a) → getPathD m p = some (.atom a) := by
  intro p
  induction p with
  | nil => intro d u m a _ _ _ hp; simp [getPathD] at hp
  | cons k p' ih =>
    intro d u m a hnd hc hm hp
    obtain ⟨m', hm', hspec⟩ := recursive_update_spec d u hnd hc
    rw [hm] at hm'
    have hmm : m' = m := by
      injection hm' with h1
      injection h1 with h2
      exact h2.symm
    rw [hmm] at hspec
    cases p' with
    | nil =>
      have hu : lookupD u k = some (.atom a) := hp
      show lookupD m k = some (.atom a)
      rw [hspec k]
      unfold rupd_lookup_spec
      cases hd : lookupD d k with
      | none => rw [hu]
      | some dv =>
        cases dv with
        | atom b => rw [hu]
        | dict dd =>
          have hbad := compatD_lookup d u k (.dict dd) (.atom a) hc hd hu
          simp [compatV] at hbad
    | cons k2 p2 =>
      cases hu : lookupD u k with
      | none =>
        rw [getPathD_cons_cons_none u k k2 p2 hu] at hp
        exact absurd hp (by simp)
      | some uv =>
        cases uv with
        | atom b =>
          rw [getPathD_cons_cons_atom u k k2 p2 b hu] at hp
          exact absurd hp (by simp)
        | dict udd =>
          rw [getPathD_cons_cons_dict u udd k k2 p2 hu] at hp
          cases hd : lookupD d k with
          | none =>
            have hlm : lookupD m k = some (.dict udd) := by
              rw [hspec k]
              unfold rupd_lookup_spec
              rw [hd, hu]
            rw [getPathD_cons_cons_dict m udd k k2 p2 hlm]
            exact hp
          | some dv =>
            cases dv with
            | atom b =>
              have hlm : lookupD m k = some (.dict udd) := by
                rw [hspec k]
                unfold rupd_lookup_spec
                rw [hd, hu]
              rw [getPathD_cons_cons_dict m udd k k2 p2 hlm]
              exact hp
            | dict dd =>
              have hndd : nodup_keysD dd = true := by
                simpa [nodup_keysV] using
                  nodup_keysD_lookup d k (.dict dd) hnd hd
              have hcdd : compatD dd udd = true := by
                simpa [compatV] using
                  compatD_lookup d u k (.dict dd) (.dict udd) hc hd hu
              obtain ⟨md, hmd, _⟩ := recursive_update_spec dd udd hndd hcdd
              have hlm : lookupD m k = some (.dict md) := by
                rw [hspec k]
                unfold rupd_lookup_spec
                rw [hd, hu]
                show recursive_update dd (.dict udd) = some (.dict md)
                exact hmd
              rw [getPathD_cons_cons_dict m md k k2 p2 hlm]
              exact ih dd udd md a hndd hcdd hmd hp

/-- Every key path of the default survives into the merged result. -/
theorem rupd_contains_default_paths :
    ∀ (p : List String) (d u m : YDict),
      nodup_keysD d = true → compatD d u = true →
      recursive_update d (.dict u) = some (.dict m) →
      (getPathD d p).isSome = true → (getPathD m p).isSome = true := by
  intro p
  induction p with
  | nil => intro d u m _ _ _ hp; simp [getPathD] at hp
  | cons k p' ih =>
    intro d u m hnd hc hm hp
    obtain ⟨m', hm', hspec⟩ := recursive_update_spec d u hnd hc
    rw [hm] at hm'
    have hmm : m' = m := by
      injection hm' with h1
      injection h1 with h2
      exact h2.symm
    rw [hmm] at hspec
    cases p' with
    | nil =>
      have hp' : (lookupD d k).isSome = true := hp
      show (lookupD m k).isSome = true
      rw [hspec k]
      unfold rupd_lookup_spec
      cases hd : lookupD d k with
      | none => rw [hd] at hp'; simp at hp'
      | some dv =>
        cases hu : lookupD u k with
        | none => cases dv <;> rfl
        | some uv =>
          cases dv with
          | atom b => rfl
          | dict dd =>
            cases uv with
            | atom b =>
              have hbad := compatD_lookup d u k (.dict dd) (.atom b) hc hd hu
              simp [compatV] at hbad
            | dict udd =>
              have hndd : nodup_keysD dd = true := by
                simpa [nodup_keysV] using
                  nodup_keysD_lookup d k (.dict dd) hnd hd
              have hcdd : compatD dd udd = true := by
                simpa [compatV] using
                  compatD_lookup d u k (.dict dd) (.dict udd) hc hd hu
              obtain ⟨md, hmd, _⟩ := recursive_update_spec dd udd hndd hcdd
              show (recursive_update dd (.dict udd)).isSome = true
              rw [hmd]
              rfl
    | cons k2 p2 =>
      cases hd : lookupD d k with
      | none =>
        rw [getPathD_cons_cons_none d k k2 p2 hd] at hp
        simp at hp
      | some dv =>
        cases dv with
        | atom b =>
          rw [getPathD_cons_cons_atom d k k2 p2 b hd] at hp
          simp at hp
        | dict dd =>
          rw [getPathD_cons_cons_dict d dd k k2 p2 hd] at hp
          have hndd : nodup_keysD dd = true := by
            simpa [nodup_keysV] using nodup_keysD_lookup d k (.dict dd) hnd hd
          cases hu : lookupD u k with
          | none =>
            have hlm : lookupD m k = some (.dict dd) := by
              rw [hspec k]
              unfold rupd_lookup_spec
              rw [hd, hu]
            rw [getPathD_cons_cons_dict m dd k k2 p2 hlm]
            exact hp
          | some uv =>
            cases uv with
            | atom b =>
              have hbad := compatD_lookup d u k (.dict dd) (.atom b) hc hd hu
              simp [compatV] at hbad
            | dict udd =>
              have hcdd : compatD dd udd = true := by
                simpa [compatV] using
                  compatD_lookup d u k (.dict dd) (.dict udd) hc hd hu
              obtain ⟨md, hmd, _⟩ := recursive_update_spec dd udd hndd hcdd
              have hlm : lookupD m k = some (.dict md) := by
                rw [hspec k]
                unfold rupd_lookup_spec
                rw [hd, hu]
                show recursive_update dd (.dict udd) = some (.dict md)
                exact hmd
              rw [getPathD_cons_cons_dict m md k k2 p2 hlm]
              exact ih dd udd md hndd hcdd hmd hp

/-- C9 (confirmed): for compatible default and user dictionaries (at every
key present in both, both values are dictionaries or the default value is
not a dictionary — recursively — and the default's keys are distinct, as
Python dicts guarantee), `recursive_update` succeeds and the merged result
(a) keeps every scalar value of the user unchanged at every path,
(b) contains every key path of the default, and
(c) keeps every user entry whose key is absent from the default. -/
theorem c9_recursive_update_merge (d u : YDict)
    (hnd : nodup_keysD d = true) (hc : compatD d u = true) :
    ∃ m : YDict, recursive_update d (.dict u) = some (.dict m) ∧
      (∀ p a, getPathD u p = some (.atom a) → getPathD m p = some (.atom a)) ∧
      (∀ p, (getPathD d p).isSome = true → (getPathD m p).isSome = true) ∧
      (∀ k v, lookupD u k = some v → lookupD d k = none →
        lookupD m k = some v) := by
  obtain ⟨m, hm, hspec⟩ := recursive_update_spec d u hnd hc
  refine ⟨m, hm, ?_, ?_, ?_⟩
  · intro p a hp
    exact rupd_preserves_user_atoms p d u m a hnd hc hm hp
  · intro p hp
    exact rupd_contains_default_paths p d u m hnd hc hm hp
  · intro k v hu hd
    rw [hspec k]
    unfold rupd_lookup_spec
    rw [hd, hu]

/-- A small default configuration for the C9 witness. -/
def d_ex : YDict :=
  .cons "Proxy" (.dict (.cons "ServerPort" (.atom 502) .nil))
    (.cons "Logging" (.dict (.cons "Enable" (.atom 0) .nil)) .nil)

/-- A small user configuration for the C9 witness. -/
def u_ex : YDict :=
  .cons "Proxy" (.dict (.cons "ServerHost" (.atom 1) .nil))
    (.cons "Extra" (.atom 7) .nil)

/-- Witness for C9 at concrete dictionaries. -/
theorem c9_witness :
    nodup_keysD d_ex = true ∧ compatD d_ex u_ex = true ∧
    (∃ m : YDict, recursive_update d_ex (.dict u_ex) = some (.dict m) ∧
      (∀ p a, getPathD u_ex p = some (.atom a) →
        getPathD m p = some (.atom a)) ∧
      (∀ p, (getPathD d_ex p).isSome = true →
        (getPathD m p).isSome = true) ∧
      (∀ k v, lookupD u_ex k = some v → lookupD d_ex k = none →
        lookupD m k = some v)) :=
  ⟨by decide, by decide,
    c9_recursive_update_merge d_ex u_ex (by decide) (by decide)⟩

end ModbusProxy
